import Mathlib

/-!
Shallow embedding of `src/shared/regions/regionProvider.ts` and of the
`getSuggestionState` helper of the CodeWhisperer telemetry helper, together
with theorems about the behaviour of these functions.

JavaScript `Map<string, T>` objects are embedded as insertion-ordered
association lists (`Map.set` overwrites an existing key in place and appends a
fresh key at the end, exactly as the embedding below does), `undefined` is
embedded as `Option.none`, and JavaScript truthiness tests on strings are
embedded as explicit emptiness tests.
-/

set_option autoImplicit false

namespace AwsToolkit

/-- Modelled from the spec: the `Region` record of the endpoints manifest.
The `Region` type lives in `shared/regions/endpoints.ts`, which is not among
the sources; per the spec a region carries an identifier and a display name. -/
structure Region where
  id : String
  name : String
deriving DecidableEq, Repr

/-- Modelled from the spec: a service endpoint of the manifest names the
region it targets. -/
structure Endpoint where
  regionId : String
deriving DecidableEq, Repr

/-- Modelled from the spec: a service of the manifest has an identifier and a
list of endpoints. -/
structure Service where
  id : String
  endpoints : List Endpoint
deriving DecidableEq, Repr

/-- Modelled from the spec: a partition of the manifest has an identifier, a
DNS suffix, declared regions and declared services. -/
structure Partition where
  id : String
  dnsSuffix : String
  regions : List Region
  services : List Service
deriving DecidableEq, Repr

/-- Modelled from the spec: the `Endpoints` manifest is a list of partitions. -/
structure Endpoints where
  partitions : List Partition
deriving DecidableEq, Repr

/-- The `RegionData` record kept per region id by `RegionProvider`
(`regionProvider.ts`, interface `RegionData`). -/
structure RegionData where
  dnsSuffix : String
  partitionId : String
  region : Region
  serviceIds : List String
deriving DecidableEq, Repr

/-- The `regionData : Map<string, RegionData>` member, as an insertion-ordered
association list. -/
abbrev RegionMap := List (String × RegionData)

/-- `Map.get`: the value stored at the key, if any. -/
def mapGet : RegionMap → String → Option RegionData
  | [], _ => none
  | (k2, v) :: rest, k => if k2 = k then some v else mapGet rest k

/-- `Map.set`: overwrite an existing key in place, else append at the end. -/
def mapSet : RegionMap → String → RegionData → RegionMap
  | [], k, v => [(k, v)]
  | (k2, v2) :: rest, k, v =>
    if k2 = k then (k2, v) :: rest else (k2, v2) :: mapSet rest k v

/-- The key list of the map, in insertion order. -/
def keys (m : RegionMap) : List String := m.map Prod.fst

/-- The body of the endpoint loop of `loadFromEndpoints`: look the endpoint's
region up and, when a record exists, push the service id onto its
`serviceIds` (in the source this is an in-place `Array.push`). -/
def pushService (m : RegionMap) (regionId serviceId : String) : RegionMap :=
  match mapGet m regionId with
  | none => m
  | some rd => mapSet m regionId { rd with serviceIds := rd.serviceIds ++ [serviceId] }

/-- One iteration of the partition loop of `loadFromEndpoints`: first set a
fresh record (empty `serviceIds`) for every region the partition declares,
then walk the partition's services and push each service id onto the record
of every region one of its endpoints targets (dangling targets are dropped). -/
def loadPartition (m : RegionMap) (p : Partition) : RegionMap :=
  (p.services.foldl
    (fun acc s => s.endpoints.foldl (fun acc2 e => pushService acc2 e.regionId s.id) acc)
    (p.regions.foldl
      (fun acc r => mapSet acc r.id ⟨p.dnsSuffix, p.id, r, []⟩) m))

/-- `RegionProvider.loadFromEndpoints`: process the manifest's partitions in
order, mutating the current `regionData` map (the method does not clear it). -/
def loadFromEndpoints (m : RegionMap) (e : Endpoints) : RegionMap :=
  e.partitions.foldl loadPartition m

/-- The two `globalState` keys the provider reads: the explorer-region list
stored under `regionSettingKey` (default `[]`) and the `lastSelectedRegion`
wizard response. -/
structure GlobalState where
  explorerRegions : List String
  lastSelectedRegion : Option Region
deriving DecidableEq, Repr

/-- The state of a `RegionProvider` instance: the `regionData` map, the
session-only `lastTouchedRegion`, the injected `globalState`, and the
`awsContext.getCredentialDefaultRegion()` result. -/
structure RegionProvider where
  regionData : RegionMap
  lastTouchedRegion : Option String
  globalState : GlobalState
  credentialDefaultRegion : Option String
deriving DecidableEq, Repr

/-- `DEFAULT_REGION` constant. -/
def DEFAULT_REGION : String := "us-east-1"

/-- `DEFAULT_PARTITION` constant. -/
def DEFAULT_PARTITION : String := "aws"

/-- `DEFAULT_DNS_SUFFIX` constant. -/
def DEFAULT_DNS_SUFFIX : String := "amazonaws.com"

/-- The constructor `new RegionProvider(endpoints, globalState, awsContext)`:
start from an empty map and run `loadFromEndpoints`; `lastTouchedRegion`
starts out `undefined`. -/
def mkRegionProvider (e : Endpoints) (gs : GlobalState) (cred : Option String) :
    RegionProvider :=
  ⟨loadFromEndpoints [] e, none, gs, cred⟩

/-- A later call of `loadFromEndpoints` on an existing instance (it mutates
`regionData` without clearing it). -/
def loadIntoProvider (rp : RegionProvider) (e : Endpoints) : RegionProvider :=
  { rp with regionData := loadFromEndpoints rp.regionData e }

/-- `get defaultRegionId`: `getCredentialDefaultRegion() ?? DEFAULT_REGION`. -/
def defaultRegionId (rp : RegionProvider) : String :=
  rp.credentialDefaultRegion.getD DEFAULT_REGION

/-- `isServiceInRegion`: the source is
`!!this.regionData.get(regionId)?.serviceIds.find(x => x === serviceId) ?? false`.
`find` yields the matching string (or `undefined`), `!!` takes its JavaScript
truthiness (an empty string is falsy), and the trailing `?? false` is dead
because `!!` never yields a nullish value. -/
def isServiceInRegion (rp : RegionProvider) (serviceId regionId : String) : Bool :=
  match mapGet rp.regionData regionId with
  | none => false
  | some rd =>
    match rd.serviceIds.find? (fun x => decide (x = serviceId)) with
    | none => false
    | some s => if s = "" then false else true

/-- `getPartitionId`: `this.regionData.get(regionId)?.partitionId` followed by
`?? undefined`, which maps only nullish values (not the empty string) to
`undefined`; the warning log has no effect on the returned value. -/
def getPartitionId (rp : RegionProvider) (regionId : String) : Option String :=
  (mapGet rp.regionData regionId).map (fun rd => rd.partitionId)

/-- `getDnsSuffixForRegion`: same shape as `getPartitionId` over `dnsSuffix`. -/
def getDnsSuffixForRegion (rp : RegionProvider) (regionId : String) : Option String :=
  (mapGet rp.regionData regionId).map (fun rd => rd.dnsSuffix)

/-- `getRegions(partitionId)`: filter the map's values by partition id and
project the `region` field; the argument defaults to `defaultPartitionId`,
which may be `undefined`, so it is an `Option` here and the source's `===`
comparison is the `Option`-level equality below. -/
def getRegions (rp : RegionProvider) (partitionId : Option String) : List Region :=
  ((rp.regionData.map Prod.snd).filter
    (fun rd => decide (some rd.partitionId = partitionId))).map (fun rd => rd.region)

/-- `get defaultPartitionId`: `getPartitionId(defaultRegionId)`. -/
def defaultPartitionId (rp : RegionProvider) : Option String :=
  getPartitionId rp (defaultRegionId rp)

/-- `getExplorerRegions`: `globalState.get(regionSettingKey, [])`. -/
def getExplorerRegions (rp : RegionProvider) : List String :=
  rp.globalState.explorerRegions

/-- `Array.from(new Set(regions))`: de-duplication keeping first occurrences
in order, as a JavaScript `Set` preserves insertion order. -/
def dedup (xs : List String) : List String :=
  xs.foldl (fun acc x => if x ∈ acc then acc else acc ++ [x]) []

/-- `updateExplorerRegions`: persist `Array.from(new Set(regions))` under
`regionSettingKey`. -/
def updateExplorerRegions (rp : RegionProvider) (regions : List String) : RegionProvider :=
  { rp with globalState := { rp.globalState with explorerRegions := dedup regions } }

/-- JavaScript truthiness of an optional string: `undefined` and the empty
string are falsy. -/
def truthyStr : Option String → Bool
  | none => false
  | some s => if s = "" then false else true

/-- `guessDefaultRegion(node?)`; `nodeRegionCode` stands for `node?.regionCode`
(collapsing "no node" and "node without a region code" to `none`, which the
source's truthiness test cannot distinguish). -/
def guessDefaultRegion (rp : RegionProvider) (nodeRegionCode : Option String) : String :=
  let explorerRegions := getExplorerRegions rp
  if truthyStr nodeRegionCode then nodeRegionCode.getD ""
  else if explorerRegions.length = 1 then explorerRegions.headD ""
  else if truthyStr rp.lastTouchedRegion then rp.lastTouchedRegion.getD ""
  else
    match rp.globalState.lastSelectedRegion with
    | some reg => if reg.id = "" then defaultRegionId rp else reg.id
    | none => defaultRegionId rp

/-- `setLastTouchedRegion(region)`: `if (region) this.lastTouchedRegion = region`;
falsy arguments (`undefined`, the empty string) change nothing. -/
def setLastTouchedRegion (rp : RegionProvider) (region : Option String) : RegionProvider :=
  match region with
  | none => rp
  | some r => if r = "" then rp else { rp with lastTouchedRegion := some r }

/-- The asynchronous continuation installed by `fromEndpointsProvider`: on a
successful `load()` the instance clears `regionData` and reloads it from the
new manifest; on rejection the `catch` handler only logs and shows a message,
leaving the instance untouched. -/
def applyRefresh (rp : RegionProvider) (result : Except Unit Endpoints) : RegionProvider :=
  match result with
  | Except.ok e => { rp with regionData := loadFromEndpoints [] e }
  | Except.error _ => rp

/-- The last region entry with the given id among `rs` (later `Map.set` calls
overwrite earlier ones, so only the last declaration is visible). -/
def declRegion (rs : List Region) (k : String) : Option Region :=
  match rs with
  | [] => none
  | r :: rest =>
    match declRegion rest k with
    | some r2 => some r2
    | none => if r.id = k then some r else none

/-- The service ids the endpoint list `eps` of a service named `sid`
contributes to the record of region `k` (one copy per matching endpoint). -/
def epContrib (sid k : String) : List Endpoint → List String
  | [] => []
  | e :: rest => (if e.regionId = k then [sid] else []) ++ epContrib sid k rest

/-- The service ids a partition's service list contributes to region `k`. -/
def svcContrib (k : String) : List Service → List String
  | [] => []
  | s :: rest => epContrib s.id k s.endpoints ++ svcContrib k rest

/-- The service ids a partition list contributes to region `k` through its
services. -/
def partsContrib (k : String) : List Partition → List String
  | [] => []
  | p :: rest => svcContrib k p.services ++ partsContrib k rest

/-- Observational equality of two region records: all scalar fields equal and
the `serviceIds` lists equal as sets (membership is the only thing
`isServiceInRegion` can see of them). -/
def obsEqRD (a b : RegionData) : Prop :=
  a.dnsSuffix = b.dnsSuffix ∧ a.partitionId = b.partitionId ∧ a.region = b.region ∧
    ∀ x : String, x ∈ a.serviceIds ↔ x ∈ b.serviceIds

/-- Observational equality of two optional region records. -/
def obsEqOpt : Option RegionData → Option RegionData → Prop
  | none, none => True
  | some a, some b => obsEqRD a b
  | _, _ => False

/-- A `Map<number, string>` (the per-index recommendation suggestion state of
the telemetry helper), as an association list. -/
def intMapGet : List (Int × String) → Int → Option String
  | [], _ => none
  | (k2, v) :: rest, k => if k2 = k then some v else intMapGet rest k

/-- `TelemetryHelper.getSuggestionState` from the CodeWhisperer telemetry
helper: `state && [...].includes(state)` first (truthiness is immaterial
because the empty string is not in the list), then the
`recommendationSuggestionState !== undefined && get(i) !== 'Showed'` test,
then the accept-index comparison chain. -/
def getSuggestionState (i acceptIndex : Int)
    (recommendationSuggestionState : Option (List (Int × String))) : String :=
  let state : Option String :=
    match recommendationSuggestionState with
    | none => none
    | some m => intMapGet m i
  if state = some "Empty" ∨ state = some "Filter" ∨ state = some "Discard" then
    state.getD ""
  else if ¬ recommendationSuggestionState = none ∧ ¬ state = some "Showed" then "Unseen"
  else if acceptIndex = -1 then "Reject"
  else if i = acceptIndex then "Accept"
  else "Ignore"

/-- Empty preference store used by concrete examples. -/
def gs0 : GlobalState := ⟨[], none⟩

/-- Concrete manifest with one partition, two regions and two services. -/
def exManifest : Endpoints :=
  ⟨[⟨"aws", "amazonaws.com",
      [⟨"us-east-1", "US East (N. Virginia)"⟩, ⟨"eu-west-1", "Europe (Ireland)"⟩],
      [⟨"lambda", [⟨"us-east-1"⟩]⟩, ⟨"s3", [⟨"us-east-1"⟩, ⟨"eu-west-1"⟩]⟩]⟩]⟩

/-- Provider freshly constructed from `exManifest`. -/
def exProvider : RegionProvider := mkRegionProvider exManifest gs0 none

/-- Manifest whose only endpoint targets a region the manifest never declares. -/
def exDangling : Endpoints :=
  ⟨[⟨"aws", "amazonaws.com", [], [⟨"lambda", [⟨"us-east-1"⟩]⟩]⟩]⟩

/-- Manifest declaring a service whose id is the empty string. -/
def exEmptyService : Endpoints :=
  ⟨[⟨"aws", "amazonaws.com", [⟨"r1", "R1"⟩], [⟨"", [⟨"r1"⟩]⟩]⟩]⟩

/-- Manifest whose only partition has an empty id and an empty DNS suffix. -/
def exEmptyPartition : Endpoints := ⟨[⟨"", "", [⟨"r1", "R1"⟩], []⟩]⟩

/-- Provider whose session already recorded a last-touched region. -/
def exTouchedProvider : RegionProvider :=
  setLastTouchedRegion exProvider (some "eu-central-1")

theorem mapGet_mapSet (m : RegionMap) (k k2 : String) (v : RegionData) :
    mapGet (mapSet m k v) k2 = if k = k2 then some v else mapGet m k2 := by
  induction m with
  | nil =>
    by_cases h : k = k2 <;> simp [mapGet, mapSet, h]
  | cons hd tl ih =>
    obtain ⟨k3, v3⟩ := hd
    by_cases h3 : k3 = k
    · subst h3
      by_cases h2 : k3 = k2 <;> simp [mapGet, mapSet, h2]
    · by_cases h1 : k3 = k2 <;> by_cases h2 : k = k2 <;>
        simp_all [mapGet, mapSet]

theorem mapGet_eq_none_iff (m : RegionMap) (k : String) :
    mapGet m k = none ↔ ¬ k ∈ keys m := by
  induction m with
  | nil => simp [mapGet, keys]
  | cons hd tl ih =>
    obtain ⟨k2, v⟩ := hd
    by_cases h : k2 = k <;> simp_all [mapGet, keys, eq_comm]

theorem mapGet_pushService (m : RegionMap) (r sid k : String) :
    mapGet (pushService m r sid) k =
      if r = k then
        (mapGet m k).map (fun rd => { rd with serviceIds := rd.serviceIds ++ [sid] })
      else mapGet m k := by
  unfold pushService
  cases h : mapGet m r with
  | none =>
    by_cases hrk : r = k
    · subst hrk; simp [h]
    · simp [hrk]
  | some rd =>
    rw [mapGet_mapSet]
    by_cases hrk : r = k
    · subst hrk; simp [h]
    · simp [hrk]

theorem keys_mapSet_mem (m : RegionMap) (k : String) (v : RegionData)
    (h : k ∈ keys m) : keys (mapSet m k v) = keys m := by
  induction m with
  | nil => simp [keys] at h
  | cons hd tl ih =>
    obtain ⟨k2, v2⟩ := hd
    by_cases h2 : k2 = k
    · simp [mapSet, h2, keys]
    · have hmem : k ∈ keys tl := by
        simp only [keys, List.map_cons, List.mem_cons] at h
        rcases h with h | h
        · exact absurd h.symm h2
        · exact h
      have hk := ih hmem
      simp only [keys] at hk
      simp [mapSet, h2, keys, hk]

theorem keys_mapSet_not_mem (m : RegionMap) (k : String) (v : RegionData)
    (h : ¬ k ∈ keys m) : keys (mapSet m k v) = keys m ++ [k] := by
  induction m with
  | nil => simp [mapSet, keys]
  | cons hd tl ih =>
    obtain ⟨k2, v2⟩ := hd
    simp only [keys, List.map_cons, List.mem_cons] at h
    push_neg at h
    have h2 : ¬ k2 = k := fun hh => h.1 hh.symm
    have htl : ¬ k ∈ keys tl := h.2
    have hk := ih htl
    simp only [keys] at hk
    simp [mapSet, h2, keys, hk]

theorem keys_pushService (m : RegionMap) (r sid : String) :
    keys (pushService m r sid) = keys m := by
  unfold pushService
  cases h : mapGet m r with
  | none => rfl
  | some rd =>
    apply keys_mapSet_mem
    by_contra hc
    have hnone := (mapGet_eq_none_iff m r).mpr hc
    rw [h] at hnone
    exact Option.noConfusion hnone

theorem nodup_keys_mapSet (m : RegionMap) (k : String) (v : RegionData)
    (h : (keys m).Nodup) : (keys (mapSet m k v)).Nodup := by
  by_cases hm : k ∈ keys m
  · rw [keys_mapSet_mem m k v hm]; exact h
  · rw [keys_mapSet_not_mem m k v hm]
    simp [List.nodup_append, h, hm]

theorem mapGet_foldRegions (rs : List Region) (dns pid : String) (m : RegionMap)
    (k : String) :
    mapGet (rs.foldl (fun acc r => mapSet acc r.id ⟨dns, pid, r, []⟩) m) k =
      match declRegion rs k with
      | some r => some ⟨dns, pid, r, []⟩
      | none => mapGet m k := by
  induction rs generalizing m with
  | nil => simp [declRegion]
  | cons r rest ih =>
    rw [List.foldl_cons, ih]
    cases h : declRegion rest k with
    | some r2 => simp [declRegion, h]
    | none =>
      rw [mapGet_mapSet]
      by_cases hid : r.id = k <;> simp [declRegion, h, hid]

theorem mapGet_foldEndpoints (eps : List Endpoint) (sid : String) (m : RegionMap)
    (k : String) :
    mapGet (eps.foldl (fun acc e => pushService acc e.regionId sid) m) k =
      (mapGet m k).map
        (fun rd => { rd with serviceIds := rd.serviceIds ++ epContrib sid k eps }) := by
  induction eps generalizing m with
  | nil => cases h : mapGet m k <;> simp [epContrib, h]
  | cons e rest ih =>
    rw [List.foldl_cons, ih, mapGet_pushService]
    by_cases he : e.regionId = k
    · cases h : mapGet m k <;> simp [he, epContrib, h, List.append_assoc]
    · simp [he, epContrib]

theorem mapGet_foldServices (ss : List Service) (m : RegionMap) (k : String) :
    mapGet (ss.foldl
        (fun acc s => s.endpoints.foldl (fun a e => pushService a e.regionId s.id) acc)
        m) k =
      (mapGet m k).map
        (fun rd => { rd with serviceIds := rd.serviceIds ++ svcContrib k ss }) := by
  induction ss generalizing m with
  | nil => cases h : mapGet m k <;> simp [svcContrib, h]
  | cons s rest ih =>
    rw [List.foldl_cons, ih, mapGet_foldEndpoints]
    cases h : mapGet m k <;> simp [svcContrib, h, List.append_assoc]

theorem mapGet_loadPartition (m : RegionMap) (p : Partition) (k : String) :
    mapGet (loadPartition m p) k =
      match declRegion p.regions k with
      | some r => some ⟨p.dnsSuffix, p.id, r, svcContrib k p.services⟩
      | none => (mapGet m k).map
          (fun rd => { rd with serviceIds := rd.serviceIds ++ svcContrib k p.services }) := by
  unfold loadPartition
  rw [mapGet_foldServices, mapGet_foldRegions]
  cases h : declRegion p.regions k <;> simp

theorem mapGet_load_not_declared (ps : List Partition) (m : RegionMap) (k : String)
    (h : ∀ p ∈ ps, declRegion p.regions k = none) :
    mapGet (ps.foldl loadPartition m) k =
      (mapGet m k).map
        (fun rd => { rd with serviceIds := rd.serviceIds ++ partsContrib k ps }) := by
  induction ps generalizing m with
  | nil => cases hg : mapGet m k <;> simp [partsContrib, hg]
  | cons p rest ih =>
    rw [List.foldl_cons, ih _ (fun q hq => h q (List.mem_cons_of_mem _ hq)),
      mapGet_loadPartition]
    have hp := h p (List.mem_cons_self _ _)
    rw [hp]
    cases hg : mapGet m k <;> simp [partsContrib, hg, List.append_assoc]

theorem mapGet_load_declared (ps1 : List Partition) (p : Partition)
    (ps2 : List Partition) (m : RegionMap) (k : String) (r : Region)
    (hd : declRegion p.regions k = some r)
    (h2 : ∀ q ∈ ps2, declRegion q.regions k = none) :
    mapGet ((ps1 ++ p :: ps2).foldl loadPartition m) k =
      some ⟨p.dnsSuffix, p.id, r, svcContrib k p.services ++ partsContrib k ps2⟩ := by
  rw [List.foldl_append, List.foldl_cons,
    mapGet_load_not_declared ps2 _ k h2, mapGet_loadPartition, hd]
  simp

theorem declRegion_mem (rs : List Region) (k : String) (r : Region)
    (h : declRegion rs k = some r) : r ∈ rs ∧ r.id = k := by
  induction rs with
  | nil => simp [declRegion] at h
  | cons r0 rest ih =>
    rw [declRegion] at h
    cases h2 : declRegion rest k with
    | some r2 =>
      rw [h2] at h
      obtain ⟨hm, hid⟩ := ih (h2.trans (by injection h with h; rw [h]))
      exact ⟨List.mem_cons_of_mem _ hm, hid⟩
    | none =>
      rw [h2] at h
      by_cases hid : r0.id = k
      · rw [if_pos hid] at h
        injection h with h
        subst h
        exact ⟨List.mem_cons_self _ _, hid⟩
      · rw [if_neg hid] at h
        exact Option.noConfusion h

theorem declRegion_ne_none (rs : List Region) (k : String) (r : Region)
    (hr : r ∈ rs) (hid : r.id = k) : ¬ declRegion rs k = none := by
  induction rs with
  | nil => simp at hr
  | cons r0 rest ih =>
    rw [declRegion]
    cases h2 : declRegion rest k with
    | some r2 => simp
    | none =>
      rcases List.mem_cons.mp hr with h | h
      · subst h
        simp [hid]
      · exact absurd h2 (ih h)

theorem exists_last_decl (ps : List Partition) (k : String)
    (h : ∃ p ∈ ps, ¬ declRegion p.regions k = none) :
    ∃ ps1 p ps2 r, ps = ps1 ++ p :: ps2 ∧ declRegion p.regions k = some r ∧
      ∀ q ∈ ps2, declRegion q.regions k = none := by
  induction ps with
  | nil => simp at h
  | cons p0 rest ih =>
    by_cases hr : ∃ p ∈ rest, ¬ declRegion p.regions k = none
    · obtain ⟨ps1, p, ps2, r, heq, hd, h2⟩ := ih hr
      exact ⟨p0 :: ps1, p, ps2, r, by simp [heq], hd, h2⟩
    · push_neg at hr
      obtain ⟨p, hp, hne⟩ := h
      rcases List.mem_cons.mp hp with hp | hp
      · subst hp
        cases hd0 : declRegion p.regions k with
        | none => exact absurd hd0 hne
        | some r => exact ⟨[], p, rest, r, rfl, hd0, hr⟩
      · exact absurd (hr p hp) hne

theorem mem_epContrib (x sid k : String) (eps : List Endpoint) :
    x ∈ epContrib sid k eps ↔ x = sid ∧ ∃ ep ∈ eps, ep.regionId = k := by
  induction eps with
  | nil => simp [epContrib]
  | cons e rest ih =>
    by_cases he : e.regionId = k
    · simp [epContrib, he, ih]
      tauto
    · simp [epContrib, he, ih]

theorem mem_svcContrib (x k : String) (ss : List Service) :
    x ∈ svcContrib k ss ↔
      ∃ s ∈ ss, x = s.id ∧ ∃ ep ∈ s.endpoints, ep.regionId = k := by
  induction ss with
  | nil => simp [svcContrib]
  | cons s rest ih =>
    simp [svcContrib, ih, mem_epContrib]

theorem mem_partsContrib (x k : String) (ps : List Partition) :
    x ∈ partsContrib k ps ↔
      ∃ p ∈ ps, ∃ s ∈ p.services, x = s.id ∧ ∃ ep ∈ s.endpoints, ep.regionId = k := by
  induction ps with
  | nil => simp [partsContrib]
  | cons p rest ih =>
    simp [partsContrib, ih, mem_svcContrib]

theorem find_mem_eq (l : List String) (sid : String) :
    l.find? (fun x => decide (x = sid)) = if sid ∈ l then some sid else none := by
  induction l with
  | nil => simp
  | cons a rest ih =>
    by_cases h : a = sid
    · subst h
      rw [List.find?_cons_of_pos _ (by simp)]
      simp
    · rw [List.find?_cons_of_neg _ (by simp [h]), ih]
      have hne : ¬ sid = a := fun hh => h hh.symm
      by_cases hm : sid ∈ rest <;> simp [hm, hne]

theorem isServiceInRegion_charac (rp : RegionProvider) (sid rid : String) :
    isServiceInRegion rp sid rid = true ↔
      ∃ rd, mapGet rp.regionData rid = some rd ∧ sid ∈ rd.serviceIds ∧ ¬ sid = "" := by
  cases h : mapGet rp.regionData rid with
  | none =>
    unfold isServiceInRegion
    rw [h]
    simp [h]
  | some rd =>
    unfold isServiceInRegion
    rw [h]
    show (match rd.serviceIds.find? (fun x => decide (x = sid)) with
      | none => false
      | some s => if s = "" then false else true) = true ↔ _
    rw [find_mem_eq]
    by_cases hm : sid ∈ rd.serviceIds
    · by_cases hs : sid = ""
      · subst hs
        simp [hm]
      · simp [h, hm, hs]
    · simp [h, hm]

theorem obsEqRD_refl (a : RegionData) : obsEqRD a a :=
  ⟨rfl, rfl, rfl, fun _ => Iff.rfl⟩

theorem obsEqOpt_refl (o : Option RegionData) : obsEqOpt o o := by
  cases o with
  | none => trivial
  | some a => exact obsEqRD_refl a

theorem mapGet_load_load_pointwise (s : RegionMap) (e : Endpoints) (k : String) :
    obsEqOpt (mapGet (loadFromEndpoints (loadFromEndpoints s e) e) k)
      (mapGet (loadFromEndpoints s e) k) := by
  by_cases h : ∃ p ∈ e.partitions, ¬ declRegion p.regions k = none
  · obtain ⟨ps1, p, ps2, r, heq, hd, h2⟩ := exists_last_decl e.partitions k h
    unfold loadFromEndpoints
    rw [heq]
    rw [mapGet_load_declared ps1 p ps2 _ k r hd h2,
      mapGet_load_declared ps1 p ps2 _ k r hd h2]
    exact obsEqOpt_refl _
  · push_neg at h
    unfold loadFromEndpoints
    rw [mapGet_load_not_declared _ _ _ h, mapGet_load_not_declared _ _ _ h]
    cases hg : mapGet s k with
    | none => trivial
    | some rd =>
      exact ⟨rfl, rfl, rfl, fun x => by simp [List.mem_append]⟩

theorem keys_foldEndpoints (eps : List Endpoint) (sid : String) (m : RegionMap) :
    keys (eps.foldl (fun acc e => pushService acc e.regionId sid) m) = keys m := by
  induction eps generalizing m with
  | nil => rfl
  | cons e rest ih => rw [List.foldl_cons, ih, keys_pushService]

theorem keys_foldServices (ss : List Service) (m : RegionMap) :
    keys (ss.foldl
      (fun acc s => s.endpoints.foldl (fun a e => pushService a e.regionId s.id) acc)
      m) = keys m := by
  induction ss generalizing m with
  | nil => rfl
  | cons s rest ih => rw [List.foldl_cons, ih, keys_foldEndpoints]

theorem keys_foldRegions_preserved (rs : List Region) (dns pid : String) (m : RegionMap)
    (h : ∀ r ∈ rs, r.id ∈ keys m) :
    keys (rs.foldl (fun acc r => mapSet acc r.id ⟨dns, pid, r, []⟩) m) = keys m := by
  induction rs generalizing m with
  | nil => rfl
  | cons r rest ih =>
    rw [List.foldl_cons]
    have hmem : r.id ∈ keys m := h r (List.mem_cons_self _ _)
    have hk := keys_mapSet_mem m r.id ⟨dns, pid, r, []⟩ hmem
    rw [ih _ (fun q hq => by rw [hk]; exact h q (List.mem_cons_of_mem _ hq)), hk]

theorem keys_loadPartition_preserved (m : RegionMap) (p : Partition)
    (h : ∀ r ∈ p.regions, r.id ∈ keys m) :
    keys (loadPartition m p) = keys m := by
  unfold loadPartition
  rw [keys_foldServices, keys_foldRegions_preserved _ _ _ _ h]

theorem keys_load_preserved (ps : List Partition) (m : RegionMap)
    (h : ∀ p ∈ ps, ∀ r ∈ p.regions, r.id ∈ keys m) :
    keys (ps.foldl loadPartition m) = keys m := by
  induction ps generalizing m with
  | nil => rfl
  | cons p rest ih =>
    rw [List.foldl_cons]
    have hk := keys_loadPartition_preserved m p (h p (List.mem_cons_self _ _))
    rw [ih _ (fun q hq r hr => by rw [hk]; exact h q (List.mem_cons_of_mem _ hq) r hr), hk]

theorem mem_keys_load_of_declared (ps : List Partition) (m : RegionMap) (k : String)
    (h : ∃ p ∈ ps, ∃ r ∈ p.regions, r.id = k) :
    k ∈ keys (ps.foldl loadPartition m) := by
  obtain ⟨p, hp, r, hr, hid⟩ := h
  have hne : ∃ p2 ∈ ps, ¬ declRegion p2.regions k = none :=
    ⟨p, hp, declRegion_ne_none _ _ r hr hid⟩
  obtain ⟨ps1, p2, ps2, r2, heq, hd, h2⟩ := exists_last_decl ps k hne
  rw [heq]
  have hsome := mapGet_load_declared ps1 p2 ps2 m k r2 hd h2
  by_contra hc
  have hnone := (mapGet_eq_none_iff _ k).mpr hc
  rw [hsome] at hnone
  exact Option.noConfusion hnone

theorem nodup_keys_foldRegions (rs : List Region) (dns pid : String) (m : RegionMap)
    (h : (keys m).Nodup) :
    (keys (rs.foldl (fun acc r => mapSet acc r.id ⟨dns, pid, r, []⟩) m)).Nodup := by
  induction rs generalizing m with
  | nil => exact h
  | cons r rest ih =>
    rw [List.foldl_cons]
    exact ih _ (nodup_keys_mapSet _ _ _ h)

theorem nodup_keys_loadPartition (m : RegionMap) (p : Partition)
    (h : (keys m).Nodup) : (keys (loadPartition m p)).Nodup := by
  unfold loadPartition
  rw [keys_foldServices]
  exact nodup_keys_foldRegions _ _ _ _ h

theorem nodup_keys_load (ps : List Partition) (m : RegionMap)
    (h : (keys m).Nodup) : (keys (ps.foldl loadPartition m)).Nodup := by
  induction ps generalizing m with
  | nil => exact h
  | cons p rest ih =>
    rw [List.foldl_cons]
    exact ih _ (nodup_keys_loadPartition _ _ h)

theorem keys_load_load (s : RegionMap) (e : Endpoints) :
    keys (loadFromEndpoints (loadFromEndpoints s e) e) =
      keys (loadFromEndpoints s e) := by
  unfold loadFromEndpoints
  apply keys_load_preserved
  intro p hp r hr
  exact mem_keys_load_of_declared _ _ _ ⟨p, hp, r, hr, rfl⟩

theorem forall2_of_pointwise (m1 : RegionMap) (m2 : RegionMap)
    (hk : keys m1 = keys m2) (hnd : (keys m1).Nodup)
    (h : ∀ k, obsEqOpt (mapGet m1 k) (mapGet m2 k)) :
    List.Forall₂ (fun a b => a.1 = b.1 ∧ obsEqRD a.2 b.2) m1 m2 := by
  induction m1 generalizing m2 with
  | nil =>
    cases m2 with
    | nil => exact List.Forall₂.nil
    | cons b bs => simp [keys] at hk
  | cons a as ih =>
    cases m2 with
    | nil => simp [keys] at hk
    | cons b bs =>
      obtain ⟨k1, v1⟩ := a
      obtain ⟨k2, v2⟩ := b
      have hkk : k1 = k2 ∧ keys as = keys bs := by simpa [keys] using hk
      obtain ⟨hk12, hkeq⟩ := hkk
      subst hk12
      have hrel : obsEqRD v1 v2 := by
        have h1 := h k1
        simp only [mapGet, if_pos rfl] at h1
        exact h1
      have hnd1 : ¬ k1 ∈ keys as ∧ (keys as).Nodup := by simpa [keys] using hnd
      have hknotin2 : ¬ k1 ∈ keys bs := by
        rw [← hkeq]
        exact hnd1.1
      apply List.Forall₂.cons ⟨rfl, hrel⟩
      apply ih bs hkeq hnd1.2
      intro k
      by_cases hkk1 : k1 = k
      · subst hkk1
        rw [(mapGet_eq_none_iff as k1).mpr hnd1.1,
          (mapGet_eq_none_iff bs k1).mpr hknotin2]
        trivial
      · have h1 := h k
        simp only [mapGet, if_neg hkk1] at h1
        exact h1

theorem getRegions_eq_of_forall2 (m1 : RegionMap) (m2 : RegionMap)
    (h : List.Forall₂ (fun a b => a.1 = b.1 ∧ obsEqRD a.2 b.2) m1 m2)
    (pid : Option String) :
    ((m1.map Prod.snd).filter
        (fun rd => decide (some rd.partitionId = pid))).map (fun rd => rd.region) =
      ((m2.map Prod.snd).filter
        (fun rd => decide (some rd.partitionId = pid))).map (fun rd => rd.region) := by
  induction h with
  | nil => rfl
  | @cons a b as bs hab hrest ih =>
    have hobs := hab.2
    unfold obsEqRD at hobs
    obtain ⟨hdns, hpart, hreg, hmem⟩ := hobs
    by_cases hc : some a.2.partitionId = pid
    · have hc2 : some b.2.partitionId = pid := by rw [← hpart]; exact hc
      simp [List.filter_cons, hc, hc2, hreg, ih]
    · have hc2 : ¬ some b.2.partitionId = pid := by rw [← hpart]; exact hc
      simp [List.filter_cons, hc, hc2, ih]

theorem bool_eq_of_iff (a b : Bool) (h : a = true ↔ b = true) : a = b := by
  cases a <;> cases b <;> simp_all

theorem exists_svc_iff_of_obsEq (o1 o2 : Option RegionData) (sid : String)
    (h : obsEqOpt o1 o2) :
    (∃ rd, o1 = some rd ∧ sid ∈ rd.serviceIds ∧ ¬ sid = "") ↔
      (∃ rd, o2 = some rd ∧ sid ∈ rd.serviceIds ∧ ¬ sid = "") := by
  cases o1 with
  | none =>
    cases o2 with
    | none => simp
    | some b => exact absurd h (by simp [obsEqOpt])
  | some a =>
    cases o2 with
    | none => exact absurd h (by simp [obsEqOpt])
    | some b =>
      have hobs : obsEqRD a b := h
      unfold obsEqRD at hobs
      simp only [Option.some_inj]
      constructor
      · rintro ⟨rd, hrd, hm, hs⟩
        subst hrd
        exact ⟨b, rfl, (hobs.2.2.2 sid).mp hm, hs⟩
      · rintro ⟨rd, hrd, hm, hs⟩
        subst hrd
        exact ⟨a, rfl, (hobs.2.2.2 sid).mpr hm, hs⟩

theorem fields_eq_of_obsEq (o1 o2 : Option RegionData) (h : obsEqOpt o1 o2) :
    o1.map (fun rd => rd.partitionId) = o2.map (fun rd => rd.partitionId) ∧
      o1.map (fun rd => rd.dnsSuffix) = o2.map (fun rd => rd.dnsSuffix) := by
  cases o1 with
  | none =>
    cases o2 with
    | none => simp
    | some b => exact absurd h (by simp [obsEqOpt])
  | some a =>
    cases o2 with
    | none => exact absurd h (by simp [obsEqOpt])
    | some b =>
      have hobs : obsEqRD a b := h
      unfold obsEqRD at hobs
      simp [hobs.1, hobs.2.1]

theorem dedup_go_mem (xs : List String) (acc : List String) (x : String) :
    (x ∈ xs.foldl (fun acc2 y => if y ∈ acc2 then acc2 else acc2 ++ [y]) acc) ↔
      x ∈ acc ∨ x ∈ xs := by
  induction xs generalizing acc with
  | nil => simp
  | cons a rest ih =>
    rw [List.foldl_cons]
    by_cases h : a ∈ acc
    · rw [if_pos h, ih]
      constructor
      · rintro (hh | hh)
        · exact Or.inl hh
        · exact Or.inr (List.mem_cons_of_mem _ hh)
      · rintro (hh | hh)
        · exact Or.inl hh
        · rcases List.mem_cons.mp hh with hh | hh
          · subst hh
            exact Or.inl h
          · exact Or.inr hh
    · rw [if_neg h, ih]
      simp [List.mem_append]
      tauto

theorem dedup_go_nodup (xs : List String) (acc : List String) (h : acc.Nodup) :
    (xs.foldl (fun acc2 y => if y ∈ acc2 then acc2 else acc2 ++ [y]) acc).Nodup := by
  induction xs generalizing acc with
  | nil => exact h
  | cons a rest ih =>
    rw [List.foldl_cons]
    by_cases hm : a ∈ acc
    · rw [if_pos hm]
      exact ih _ h
    · rw [if_neg hm]
      exact ih _ (by simp [List.nodup_append, h, hm])

theorem mem_dedup (x : String) (xs : List String) : x ∈ dedup xs ↔ x ∈ xs := by
  unfold dedup
  rw [dedup_go_mem]
  simp

theorem nodup_dedup (xs : List String) : (dedup xs).Nodup :=
  dedup_go_nodup xs [] (by simp)

/-- C4 counterexample: a fresh provider loaded from `exEmptyService` holds a
record for `r1` whose service set contains the empty service id, yet
`isServiceInRegion("", "r1")` is `false`, refuting the claimed
"contains implies true" direction for every pair of strings. -/
theorem isServiceInRegion_empty_serviceId :
    (∃ rd, mapGet (mkRegionProvider exEmptyService gs0 none).regionData "r1" = some rd ∧
        "" ∈ rd.serviceIds) ∧
      isServiceInRegion (mkRegionProvider exEmptyService gs0 none) "" "r1" = false := by
  constructor
  · exact ⟨⟨"amazonaws.com", "aws", ⟨"r1", "R1"⟩, [""]⟩, by decide, by decide⟩
  · decide

/-- C4 (amended): `isServiceInRegion(serviceId, regionId)` is `true` iff a
record for `regionId` exists, its service set contains `serviceId`, and
`serviceId` is non-empty — the implementation coerces the string found by
`Array.find` to a boolean, so an empty service id is never reported present.
In particular an absent region yields `false` and no error. -/
theorem isServiceInRegion_iff (rp : RegionProvider) (serviceId regionId : String) :
    isServiceInRegion rp serviceId regionId = true ↔
      ∃ rd, mapGet rp.regionData regionId = some rd ∧
        serviceId ∈ rd.serviceIds ∧ ¬ serviceId = "" :=
  isServiceInRegion_charac rp serviceId regionId

/-- C5: when the endpoints refresh fails (the `load()` promise rejects), the
`catch` handler leaves the provider untouched: the whole state is unchanged,
so `getRegions` and `isServiceInRegion` answer exactly as before the call and
nothing escapes to the caller (the handler only logs and raises a message,
which the embedding treats as having no effect on the observable state). -/
theorem refresh_failure_preserves_index (rp : RegionProvider) :
    applyRefresh rp (Except.error ()) = rp ∧
      (∀ pid : Option String,
        getRegions (applyRefresh rp (Except.error ())) pid = getRegions rp pid) ∧
      (∀ sid rid : String,
        isServiceInRegion (applyRefresh rp (Except.error ())) sid rid =
          isServiceInRegion rp sid rid) :=
  ⟨rfl, fun _ => rfl, fun _ _ => rfl⟩

/-- C7: `updateExplorerRegions` persists the input with duplicates collapsed
(`Array.from(new Set(...))`), so a subsequent `getExplorerRegions` returns a
list that is set-equivalent to the input with each distinct element exactly
once; concretely the documented duplicate example collapses to two regions. -/
theorem updateExplorerRegions_dedup (rp : RegionProvider) (regions : List String) :
    getExplorerRegions (updateExplorerRegions rp regions) = dedup regions ∧
      (∀ x, x ∈ getExplorerRegions (updateExplorerRegions rp regions) ↔ x ∈ regions) ∧
      (getExplorerRegions (updateExplorerRegions rp regions)).Nodup ∧
      getExplorerRegions (updateExplorerRegions exProvider
        ["us-east-1", "us-east-1", "eu-west-1"]) = ["us-east-1", "eu-west-1"] := by
  refine ⟨rfl, ?_, ?_, by decide⟩
  · intro x
    show x ∈ dedup regions ↔ x ∈ regions
    exact mem_dedup x regions
  · show (dedup regions).Nodup
    exact nodup_dedup regions

/-- C8: `setLastTouchedRegion` with a missing argument changes nothing at all
(the guard `if (region)` skips falsy input), and after recording
`eu-central-1` a subsequent missing-argument call leaves that value intact. -/
theorem setLastTouchedRegion_none_noop (rp : RegionProvider) :
    setLastTouchedRegion rp none = rp ∧
      (setLastTouchedRegion (setLastTouchedRegion rp (some "eu-central-1"))
          none).lastTouchedRegion = some "eu-central-1" := by
  constructor
  · rfl
  · show (setLastTouchedRegion rp (some "eu-central-1")).lastTouchedRegion = _
    simp [setLastTouchedRegion]

/-- C1 counterexample: `exDangling` declares an endpoint for service `lambda`
targeting region `us-east-1`, yet a fresh provider loaded from it answers
`false` for that pair — the manifest never declares the region, so the
endpoint is dropped during ingestion. -/
theorem isServiceInRegion_dangling_endpoint :
    (∃ p ∈ exDangling.partitions, ∃ s ∈ p.services,
        s.id = "lambda" ∧ ∃ ep ∈ s.endpoints, ep.regionId = "us-east-1") ∧
      isServiceInRegion (mkRegionProvider exDangling gs0 none) "lambda" "us-east-1" =
        false := by
  constructor
  · decide
  · decide

/-- C1 (amended): on a fresh provider loaded from a manifest, if the region is
declared (taking the last declaring partition) and an endpoint of a service
with a non-empty id targets it from that partition or a later one, then
`isServiceInRegion` is `true`; and for a region that no endpoint of the
service ever mentions, it is `false`. -/
theorem loadFromEndpoints_isServiceInRegion (e : Endpoints) (gs : GlobalState)
    (cred : Option String) (svc rid : String) :
    (∀ ps1 p ps2 reg, e.partitions = ps1 ++ p :: ps2 →
        declRegion p.regions rid = some reg →
        (∀ q ∈ ps2, declRegion q.regions rid = none) →
        ¬ svc = "" →
        ((∃ s ∈ p.services, s.id = svc ∧ ∃ ep ∈ s.endpoints, ep.regionId = rid) ∨
          ∃ q ∈ ps2, ∃ s ∈ q.services, s.id = svc ∧ ∃ ep ∈ s.endpoints, ep.regionId = rid) →
        isServiceInRegion (mkRegionProvider e gs cred) svc rid = true) ∧
    ((∀ p ∈ e.partitions, ∀ s ∈ p.services, s.id = svc →
        ∀ ep ∈ s.endpoints, ¬ ep.regionId = rid) →
      isServiceInRegion (mkRegionProvider e gs cred) svc rid = false) := by
  constructor
  · intro ps1 p ps2 reg heq hd h2 hsvc hmem
    apply (isServiceInRegion_charac _ svc rid).mpr
    have hget : mapGet (mkRegionProvider e gs cred).regionData rid =
        some ⟨p.dnsSuffix, p.id, reg, svcContrib rid p.services ++ partsContrib rid ps2⟩ := by
      show mapGet (e.partitions.foldl loadPartition []) rid = _
      rw [heq]
      exact mapGet_load_declared ps1 p ps2 [] rid reg hd h2
    refine ⟨_, hget, ?_, hsvc⟩
    rcases hmem with ⟨s, hs, hid, ep, hep, hr⟩ | ⟨q, hq, s, hs, hid, ep, hep, hr⟩
    · exact List.mem_append.mpr (Or.inl ((mem_svcContrib svc rid p.services).mpr
        ⟨s, hs, hid.symm, ep, hep, hr⟩))
    · exact List.mem_append.mpr (Or.inr ((mem_partsContrib svc rid ps2).mpr
        ⟨q, hq, s, hs, hid.symm, ep, hep, hr⟩))
  · intro hno
    cases hb : isServiceInRegion (mkRegionProvider e gs cred) svc rid with
    | false => rfl
    | true =>
      exfalso
      obtain ⟨rd, hget, hmem, hne⟩ := (isServiceInRegion_charac _ svc rid).mp hb
      by_cases hdecl : ∃ p ∈ e.partitions, ¬ declRegion p.regions rid = none
      · obtain ⟨ps1, p, ps2, r, heq, hd, h2⟩ := exists_last_decl e.partitions rid hdecl
        have hget2 : mapGet (mkRegionProvider e gs cred).regionData rid =
            some ⟨p.dnsSuffix, p.id, r, svcContrib rid p.services ++ partsContrib rid ps2⟩ := by
          show mapGet (e.partitions.foldl loadPartition []) rid = _
          rw [heq]
          exact mapGet_load_declared ps1 p ps2 [] rid r hd h2
        rw [hget2] at hget
        injection hget with hget
        subst hget
        rcases List.mem_append.mp hmem with hm | hm
        · obtain ⟨s, hs, hid, ep, hep, hr⟩ := (mem_svcContrib svc rid p.services).mp hm
          have hpmem : p ∈ e.partitions := by
            rw [heq]
            exact List.mem_append_right _ (List.mem_cons_self _ _)
          exact hno p hpmem s hs hid.symm ep hep hr
        · obtain ⟨q, hq, s, hs, hid, ep, hep, hr⟩ := (mem_partsContrib svc rid ps2).mp hm
          have hqmem : q ∈ e.partitions := by
            rw [heq]
            exact List.mem_append_right _ (List.mem_cons_of_mem _ hq)
          exact hno q hqmem s hs hid.symm ep hep hr
      · push_neg at hdecl
        have hnone : mapGet (mkRegionProvider e gs cred).regionData rid = none := by
          show mapGet (e.partitions.foldl loadPartition []) rid = none
          rw [mapGet_load_not_declared _ _ _ hdecl]
          rfl
        rw [hnone] at hget
        exact Option.noConfusion hget

/-- C1 witness: over `exManifest`, service `s3` (with a declared endpoint in
`eu-west-1`) is reported present there, and service `lambda` (no endpoint in
`eu-west-1`) is reported absent there. -/
theorem loadFromEndpoints_isServiceInRegion_witness :
    isServiceInRegion (mkRegionProvider exManifest gs0 none) "s3" "eu-west-1" = true ∧
      isServiceInRegion (mkRegionProvider exManifest gs0 none) "lambda" "eu-west-1" =
        false := by
  constructor
  · exact (loadFromEndpoints_isServiceInRegion exManifest gs0 none "s3" "eu-west-1").1
      [] ⟨"aws", "amazonaws.com",
        [⟨"us-east-1", "US East (N. Virginia)"⟩, ⟨"eu-west-1", "Europe (Ireland)"⟩],
        [⟨"lambda", [⟨"us-east-1"⟩]⟩, ⟨"s3", [⟨"us-east-1"⟩, ⟨"eu-west-1"⟩]⟩]⟩ []
      ⟨"eu-west-1", "Europe (Ireland)"⟩ (by decide) (by decide) (by decide) (by decide)
      (by decide)
  · exact (loadFromEndpoints_isServiceInRegion exManifest gs0 none
      "lambda" "eu-west-1").2 (by decide)

/-- C2: on a fresh provider, `getPartitionId` of a declared region returns the
declaring partition's id (the last declaring partition when several declare
it) and `getDnsSuffixForRegion` that partition's DNS suffix; for a region id
no partition declares, both return `none` and neither call fails. -/
theorem loadFromEndpoints_partition_metadata (e : Endpoints) (gs : GlobalState)
    (cred : Option String) (rid : String) :
    (∀ ps1 p ps2 reg, e.partitions = ps1 ++ p :: ps2 →
        declRegion p.regions rid = some reg →
        (∀ q ∈ ps2, declRegion q.regions rid = none) →
        getPartitionId (mkRegionProvider e gs cred) rid = some p.id ∧
          getDnsSuffixForRegion (mkRegionProvider e gs cred) rid = some p.dnsSuffix) ∧
    ((∀ p ∈ e.partitions, ∀ r ∈ p.regions, ¬ r.id = rid) →
      getPartitionId (mkRegionProvider e gs cred) rid = none ∧
        getDnsSuffixForRegion (mkRegionProvider e gs cred) rid = none) := by
  constructor
  · intro ps1 p ps2 reg heq hd h2
    have hget : mapGet (mkRegionProvider e gs cred).regionData rid =
        some ⟨p.dnsSuffix, p.id, reg, svcContrib rid p.services ++ partsContrib rid ps2⟩ := by
      show mapGet (e.partitions.foldl loadPartition []) rid = _
      rw [heq]
      exact mapGet_load_declared ps1 p ps2 [] rid reg hd h2
    unfold getPartitionId getDnsSuffixForRegion
    rw [hget]
    exact ⟨rfl, rfl⟩
  · intro hno
    have hd : ∀ p ∈ e.partitions, declRegion p.regions rid = none := by
      intro p hp
      cases hdd : declRegion p.regions rid with
      | none => rfl
      | some r =>
        obtain ⟨hmem, hid⟩ := declRegion_mem _ _ _ hdd
        exact absurd hid (hno p hp r hmem)
    have hnone : mapGet (mkRegionProvider e gs cred).regionData rid = none := by
      show mapGet (e.partitions.foldl loadPartition []) rid = none
      rw [mapGet_load_not_declared _ _ _ hd]
      rfl
    unfold getPartitionId getDnsSuffixForRegion
    rw [hnone]
    exact ⟨rfl, rfl⟩

/-- C2 witness: over `exManifest`, `eu-west-1` resolves to partition `aws`
with DNS suffix `amazonaws.com`, while the undeclared `mars-1` yields `none`. -/
theorem loadFromEndpoints_partition_metadata_witness :
    getPartitionId exProvider "eu-west-1" = some "aws" ∧
      getDnsSuffixForRegion exProvider "eu-west-1" = some "amazonaws.com" ∧
      getPartitionId exProvider "mars-1" = none := by
  have ha := (loadFromEndpoints_partition_metadata exManifest gs0 none "eu-west-1").1
    [] ⟨"aws", "amazonaws.com",
      [⟨"us-east-1", "US East (N. Virginia)"⟩, ⟨"eu-west-1", "Europe (Ireland)"⟩],
      [⟨"lambda", [⟨"us-east-1"⟩]⟩, ⟨"s3", [⟨"us-east-1"⟩, ⟨"eu-west-1"⟩]⟩]⟩ []
    ⟨"eu-west-1", "Europe (Ireland)"⟩ (by decide) (by decide) (by decide)
  have hb := (loadFromEndpoints_partition_metadata exManifest gs0 none "mars-1").2
    (by decide)
  exact ⟨ha.1, ha.2, hb.1⟩

/-- C6: `loadFromEndpoints` is idempotent up to observation: loading the same
manifest twice yields the same answers from `isServiceInRegion`,
`getPartitionId`, `getDnsSuffixForRegion` and `getRegions` as loading it
once. The hypothesis — the key list of the starting map has no duplicates —
holds for every index reachable by loading, since a JavaScript `Map` never
holds a key twice. -/
theorem loadFromEndpoints_idempotent (rp : RegionProvider) (e : Endpoints)
    (hnd : (keys rp.regionData).Nodup) :
    (∀ sid rid : String,
        isServiceInRegion (loadIntoProvider (loadIntoProvider rp e) e) sid rid =
          isServiceInRegion (loadIntoProvider rp e) sid rid) ∧
      (∀ rid : String,
        getPartitionId (loadIntoProvider (loadIntoProvider rp e) e) rid =
          getPartitionId (loadIntoProvider rp e) rid) ∧
      (∀ rid : String,
        getDnsSuffixForRegion (loadIntoProvider (loadIntoProvider rp e) e) rid =
          getDnsSuffixForRegion (loadIntoProvider rp e) rid) ∧
      (∀ pid : Option String,
        getRegions (loadIntoProvider (loadIntoProvider rp e) e) pid =
          getRegions (loadIntoProvider rp e) pid) := by
  have hpt : ∀ k, obsEqOpt
      (mapGet (loadFromEndpoints (loadFromEndpoints rp.regionData e) e) k)
      (mapGet (loadFromEndpoints rp.regionData e) k) :=
    fun k => mapGet_load_load_pointwise rp.regionData e k
  refine ⟨?_, ?_, ?_, ?_⟩
  · intro sid rid
    apply bool_eq_of_iff
    rw [isServiceInRegion_charac, isServiceInRegion_charac]
    exact exists_svc_iff_of_obsEq _ _ sid (hpt rid)
  · intro rid
    exact (fields_eq_of_obsEq _ _ (hpt rid)).1
  · intro rid
    exact (fields_eq_of_obsEq _ _ (hpt rid)).2
  · intro pid
    have hkeys := keys_load_load rp.regionData e
    have hnd2 : (keys (loadFromEndpoints (loadFromEndpoints rp.regionData e) e)).Nodup := by
      rw [hkeys]
      exact nodup_keys_load e.partitions rp.regionData hnd
    have hf2 := forall2_of_pointwise _ _ hkeys hnd2 hpt
    exact getRegions_eq_of_forall2 _ _ hf2 pid

/-- C6 witness: loading `exManifest` twice into `exProvider` answers the same
as loading it once, at a concrete service membership query and a concrete
region listing. -/
theorem loadFromEndpoints_idempotent_witness :
    isServiceInRegion (loadIntoProvider (loadIntoProvider exProvider exManifest)
        exManifest) "s3" "eu-west-1" =
      isServiceInRegion (loadIntoProvider exProvider exManifest) "s3" "eu-west-1" ∧
      getRegions (loadIntoProvider (loadIntoProvider exProvider exManifest) exManifest)
          (some "aws") =
        getRegions (loadIntoProvider exProvider exManifest) (some "aws") := by
  constructor
  · exact (loadFromEndpoints_idempotent exProvider exManifest (by decide)).1
      "s3" "eu-west-1"
  · exact (loadFromEndpoints_idempotent exProvider exManifest (by decide)).2.2.2
      (some "aws")

/-- C3: `guessDefaultRegion` follows the claimed priority order — an explicit
node region code is returned verbatim with no validation; else a sole
persisted explorer region; else the session's last-touched region; else a
persisted wizard selection carrying a non-empty id; else the credential
default, which falls back to `us-east-1` when the credential source yields
none. The hypothesis records the session invariant that `lastTouchedRegion`
is never the empty string (`setLastTouchedRegion` discards falsy input). -/
theorem guessDefaultRegion_priority (rp : RegionProvider) (hint : Option String)
    (hlt : ¬ rp.lastTouchedRegion = some "") :
    (∀ c, hint = some c → ¬ c = "" → guessDefaultRegion rp hint = c) ∧
      ((hint = none ∨ hint = some "") →
        (∀ r, getExplorerRegions rp = [r] → guessDefaultRegion rp hint = r) ∧
          (¬ (getExplorerRegions rp).length = 1 →
            (∀ r, rp.lastTouchedRegion = some r → guessDefaultRegion rp hint = r) ∧
              (rp.lastTouchedRegion = none →
                (∀ reg, rp.globalState.lastSelectedRegion = some reg → ¬ reg.id = "" →
                    guessDefaultRegion rp hint = reg.id) ∧
                  ((rp.globalState.lastSelectedRegion = none ∨
                      ∃ reg, rp.globalState.lastSelectedRegion = some reg ∧ reg.id = "") →
                    guessDefaultRegion rp hint = defaultRegionId rp)))) ∧
      (rp.credentialDefaultRegion = none → defaultRegionId rp = DEFAULT_REGION) := by
  refine ⟨?_, ?_, ?_⟩
  · intro c hc hcne
    subst hc
    simp [guessDefaultRegion, truthyStr, hcne]
  · intro hh
    have ht : truthyStr hint = false := by
      rcases hh with h | h <;> simp [h, truthyStr]
    constructor
    · intro r hr
      simp [guessDefaultRegion, ht, hr]
    · intro hlen
      constructor
      · intro r hr
        have hrne : ¬ r = "" := fun hh2 => hlt (by rw [hr, hh2])
        have htl : truthyStr rp.lastTouchedRegion = true := by
          rw [hr]
          simp [truthyStr, hrne]
        simp [guessDefaultRegion, ht, hlen, htl, hr]
        intro hcon
        simp [truthyStr, hrne] at hcon
      · intro hltn
        have htl : truthyStr rp.lastTouchedRegion = false := by
          rw [hltn]
          rfl
        constructor
        · intro reg hreg hregne
          simp [guessDefaultRegion, ht, hlen, htl, hreg, hregne]
        · intro hcase
          rcases hcase with h | ⟨reg, hreg, hid⟩
          · simp [guessDefaultRegion, ht, hlen, htl, h]
          · simp [guessDefaultRegion, ht, hlen, htl, hreg, hid]
  · intro h
    simp [defaultRegionId, h]

/-- C3 witness: with no node hint, no explorer regions and a recorded
last-touched region, `guessDefaultRegion` returns the last-touched region. -/
theorem guessDefaultRegion_priority_witness :
    guessDefaultRegion exTouchedProvider none = "eu-central-1" := by
  have h := guessDefaultRegion_priority exTouchedProvider none (by decide)
  exact ((h.2.1 (Or.inl rfl)).2 (by decide)).1 "eu-central-1" (by decide)

/-- C9: `getPartitionId` and `getDnsSuffixForRegion` are absent exactly when
the region id has no record; when a record exists the stored strings are
returned as present values even when empty — `?? undefined` only maps
nullish values — as the concrete load of `exEmptyPartition` shows. -/
theorem getPartitionId_getDnsSuffix_present (rp : RegionProvider) (rid : String) :
    (getPartitionId rp rid = none ↔ mapGet rp.regionData rid = none) ∧
      (getDnsSuffixForRegion rp rid = none ↔ mapGet rp.regionData rid = none) ∧
      (∀ rd, mapGet rp.regionData rid = some rd →
        getPartitionId rp rid = some rd.partitionId ∧
          getDnsSuffixForRegion rp rid = some rd.dnsSuffix) ∧
      getPartitionId (mkRegionProvider exEmptyPartition gs0 none) "r1" = some "" ∧
      getDnsSuffixForRegion (mkRegionProvider exEmptyPartition gs0 none) "r1" =
        some "" := by
  refine ⟨?_, ?_, ?_, by decide, by decide⟩
  · unfold getPartitionId
    cases h : mapGet rp.regionData rid <;> simp [h]
  · unfold getDnsSuffixForRegion
    cases h : mapGet rp.regionData rid <;> simp [h]
  · intro rd h
    unfold getPartitionId getDnsSuffixForRegion
    rw [h]
    exact ⟨rfl, rfl⟩

/-- C9 witness: on `exProvider` the record of `us-east-1` is present and both
lookups return its stored fields. -/
theorem getPartitionId_getDnsSuffix_present_witness :
    getPartitionId exProvider "us-east-1" = some "aws" ∧
      getDnsSuffixForRegion exProvider "us-east-1" = some "amazonaws.com" := by
  have h := (getPartitionId_getDnsSuffix_present exProvider "us-east-1").2.2.1
    ⟨"amazonaws.com", "aws", ⟨"us-east-1", "US East (N. Virginia)"⟩, ["lambda", "s3"]⟩
    (by decide)
  exact h

/-- C10: `getSuggestionState` returns the mapped state when it is `Empty`,
`Filter` or `Discard`; otherwise `Unseen` whenever a map is provided and the
value at the index is not `Showed` (also at the accepted index); otherwise
`Reject` when `acceptIndex` is `-1`, `Accept` at the accepted index, and
`Ignore` elsewhere. -/
theorem getSuggestionState_cases (i acceptIndex : Int)
    (rss : Option (List (Int × String))) :
    (∀ m s, rss = some m → intMapGet m i = some s →
        (s = "Empty" ∨ s = "Filter" ∨ s = "Discard") →
        getSuggestionState i acceptIndex rss = s) ∧
      (∀ m, rss = some m →
        ¬ intMapGet m i = some "Showed" →
        ¬ (intMapGet m i = some "Empty" ∨ intMapGet m i = some "Filter" ∨
            intMapGet m i = some "Discard") →
        getSuggestionState i acceptIndex rss = "Unseen") ∧
      ((rss = none ∨ ∃ m, rss = some m ∧ intMapGet m i = some "Showed") →
        (acceptIndex = -1 → getSuggestionState i acceptIndex rss = "Reject") ∧
          (¬ acceptIndex = -1 → i = acceptIndex →
            getSuggestionState i acceptIndex rss = "Accept") ∧
          (¬ acceptIndex = -1 → ¬ i = acceptIndex →
            getSuggestionState i acceptIndex rss = "Ignore")) := by
  refine ⟨?_, ?_, ?_⟩
  · intro m s hm hs hin
    subst hm
    rcases hin with h | h | h <;> subst h <;> simp [getSuggestionState, hs]
  · intro m hm hnsh hnefd
    subst hm
    cases hst : intMapGet m i with
    | none => simp [getSuggestionState, hst]
    | some s =>
      rw [hst] at hnsh hnefd
      simp [getSuggestionState, hst, hnefd, hnsh]
      intro hcon
      exact absurd hcon (by simpa using hnefd)
  · intro hcase
    refine ⟨?_, ?_, ?_⟩
    · intro ha
      rcases hcase with h | ⟨m, hm, hsh⟩
      · subst h
        simp [getSuggestionState, ha]
      · subst hm
        simp [getSuggestionState, hsh, ha]
    · intro ha hi
      subst hi
      rcases hcase with h | ⟨m, hm, hsh⟩
      · subst h
        simp [getSuggestionState, ha]
      · subst hm
        simp [getSuggestionState, hsh, ha]
    · intro ha hi
      rcases hcase with h | ⟨m, hm, hsh⟩
      · subst h
        simp [getSuggestionState, ha, hi]
      · subst hm
        simp [getSuggestionState, hsh, ha, hi]

/-- C10 witness: the four claimed regimes at concrete inputs — a mapped
`Filter` state, an `Unseen` result at the accepted index, an `Accept` after a
`Showed` entry, and a `Reject` with no map and no acceptance. -/
theorem getSuggestionState_cases_witness :
    getSuggestionState 2 2 (some [(2, "Filter")]) = "Filter" ∧
      getSuggestionState 1 1 (some [(0, "Showed")]) = "Unseen" ∧
      getSuggestionState 3 3 (some [(3, "Showed")]) = "Accept" ∧
      getSuggestionState 0 (-1) none = "Reject" := by
  refine ⟨?_, ?_, ?_, ?_⟩
  · exact (getSuggestionState_cases 2 2 (some [(2, "Filter")])).1 [(2, "Filter")]
      "Filter" rfl (by decide) (by decide)
  · exact (getSuggestionState_cases 1 1 (some [(0, "Showed")])).2.1 [(0, "Showed")]
      rfl (by decide) (by decide)
  · exact ((getSuggestionState_cases 3 3 (some [(3, "Showed")])).2.2
      (Or.inr ⟨[(3, "Showed")], rfl, by decide⟩)).2.1 (by decide) rfl
  · exact ((getSuggestionState_cases 0 (-1) none).2.2 (Or.inl rfl)).1 rfl

end AwsToolkit
